import Mathlib

/-!
Shallow embedding of the map-machine rendering pipeline
(`src/map_machine/mapper.py`) together with the parts of its data model
that the compositing stage consumes.  Drawing into the SVG document is
modelled as emitting a list of `Primitive`s: Python's repeated
`svg.add(...)` calls append children to the document in order, so the
document is exactly the emitted list.  Python floats that only take part
in comparisons and arithmetic on exact values (priorities, heights) are
modelled as rationals; machine-level float rounding plays no role in the
properties considered here.
-/

namespace MapMachine

/-- `ROAD_PRIORITY` constant from `mapper.py`, line 36. -/
def ROAD_PRIORITY : ℚ := 40

/-- Line style resolved by the scheme; only the priority and the opaque
style attributes are relevant to the compositor. -/
structure LineStyle where
  priority : ℚ
  style : String
deriving DecidableEq

/-- A styled line/area figure.  `pathCommands` models the value of
`figure.get_path(flinger)` for the fixed flinger of the render: an empty
string means the figure produces no path and is skipped. -/
structure StyledFigure where
  lineStyle : LineStyle
  pathCommands : String
deriving DecidableEq

/-- A building wall segment (`map_machine.geometry.vector.Segment`),
identified by its two planar endpoints (geometric identity). -/
structure Segment where
  point1 : ℚ × ℚ
  point2 : ℚ × ℚ
deriving DecidableEq

/-- A building: footprint parts (wall segments), height and minimum
height (`map_machine.feature.building.Building`). -/
structure Building where
  id : ℕ
  height : ℚ
  min_height : ℚ
  parts : List Segment
deriving DecidableEq

/-- A claimed-cell footprint on the canvas. -/
abbrev Footprint := List (ℕ × ℕ)

/-- A point feature: icon set footprints plus priority
(`map_machine.pictogram.point.Point`). -/
structure Point where
  id : ℕ
  priority : ℚ
  mainCells : Footprint
  extraIcons : List Footprint
  labelCells : Footprint
deriving DecidableEq

/-- Modelled from the spec: the `Occupied` occupancy tracker
(`map_machine.pictogram.point`, not in the corpus) — a mutable 2D
region-claim structure sized to the canvas and parameterized by the
overlap tolerance; it records the set of claimed cells. -/
structure Occupied where
  width : ℕ
  height : ℕ
  overlap : ℤ
  cells : Footprint
deriving DecidableEq

/-- An OSM node: identifier plus geographic coordinates.  The OSM reader
interns nodes by identifier, so node identity is the identifier. -/
structure OSMNode where
  id : ℕ
  coordinates : ℚ × ℚ
deriving DecidableEq

/-- A road: its node polyline and lane count
(`map_machine.feature.road.Road`). -/
structure Road where
  nodes : List OSMNode
  lanes : ℕ
deriving DecidableEq

/-- A directed road half-edge (`map_machine.feature.road.RoadPart`).
`roadIdx`/`segIdx`/`forward` record which construction site produced the
part; distinct constructed Python objects are distinct set elements
(object identity), which these fields reproduce. -/
structure RoadPart where
  point1 : ℚ × ℚ
  point2 : ℚ × ℚ
  lanes : ℕ
  scale : ℚ
  roadIdx : ℕ
  segIdx : ℕ
  forward : Bool
deriving DecidableEq

/-- One primitive of the output scene document. -/
inductive Primitive where
  | background
  | figure (priority : ℚ) (path : String)
  | roadElem (i : ℕ)
  | junction (node : ℕ) (parts : List RoadPart)
  | tree (i : ℕ)
  | crater (i : ℕ)
  | buildingShade
  | buildingFlat (b : ℕ)
  | wall (seg : Segment) (b : ℕ) (lo : ℚ) (hi : ℚ)
  | roof (b : ℕ) (h : ℚ)
  | directionSector (i : ℕ)
  | mainIcon (p : ℕ)
  | extraIcon (p : ℕ) (k : ℕ)
  | label (p : ℕ)
  | credit (text : String)
deriving DecidableEq

/-- Building rendering mode (`map_machine.ui.cli.BuildingMode`). -/
inductive BuildingMode where
  | no
  | flat
  | isometric
deriving DecidableEq

/-- Label rendering mode (`map_machine.map_configuration.LabelMode`). -/
inductive LabelMode where
  | no
  | main
  | all
deriving DecidableEq

/-- The slice of `MapConfiguration` read by the compositor. -/
structure MapConfiguration where
  overlap : ℤ
  building_mode : BuildingMode
  draw_roofs : Bool
  label_mode : LabelMode
  wireframe : Bool
  credit : Option String

/-- The slice of the `Flinger` projector used by the compositor: canvas
size, projection of geographic coordinates to the plane, and the local
scale factor. -/
structure Flinger where
  sizeW : ℕ
  sizeH : ℕ
  fling : ℚ × ℚ → ℚ × ℚ
  get_scale : ℚ × ℚ → ℚ

/-- The drawable set produced by the `Constructor`.  `roadLayer` stands
for the primitives emitted by `constructor.roads.draw` (road casings and
junction shapes of the dedicated road layer). -/
structure Constructor where
  figures : List StyledFigure
  roadLayer : List ℕ
  trees : List ℕ
  craters : List ℕ
  buildings : List Building
  heights : Finset ℚ
  direction_sectors : List ℕ
  points : List Point

/-- The `Map` drawer state (`mapper.py`, `Map.__init__`). -/
structure Map where
  flinger : Flinger
  configuration : MapConfiguration

/-- Ascending line-style priority, the sort key of
`constructor.get_sorted_figures`. -/
def figLe (a b : StyledFigure) : Prop :=
  a.lineStyle.priority ≤ b.lineStyle.priority

instance : DecidableRel figLe := fun a b =>
  inferInstanceAs (Decidable (a.lineStyle.priority ≤ b.lineStyle.priority))

instance : IsTotal StyledFigure figLe :=
  ⟨fun a b => le_total a.lineStyle.priority b.lineStyle.priority⟩

instance : IsTrans StyledFigure figLe :=
  ⟨fun _ _ _ hab hbc => le_trans hab hbc⟩

/-- Modelled from the spec: `Constructor.get_sorted_figures`
(`map_machine.constructor`, not in the corpus) returns the styled
figures sorted by ascending line-style priority, ties kept in stable
input order (Python's stable sort). -/
def Constructor.get_sorted_figures (c : Constructor) : List StyledFigure :=
  List.insertionSort figLe c.figures

/-- Drawing one figure (`mapper.py` lines 74-79 and 83-88): an SVG path
is added only when `get_path` produced nonempty path commands. -/
def drawFigure (f : StyledFigure) : Option Primitive :=
  if f.pathCommands = "" then none
  else some (Primitive.figure f.lineStyle.priority f.pathCommands)

/-- Modelled from the spec: whether a footprint is free of already
claimed cells in the tracker. -/
def Occupied.isFree (o : Occupied) (fp : Footprint) : Bool :=
  fp.all (fun cell => decide (cell ∉ o.cells))

/-- Modelled from the spec: attempting an occupancy claim.  With the
tracker disabled (`none`) every claim succeeds and nothing is recorded;
with a tracker, a free footprint is claimed and a non-free one is
refused with the tracker unchanged. -/
def tryClaim : Option Occupied → Footprint → Bool × Option Occupied
  | none, _ => (true, none)
  | some o, fp =>
      if o.isFree fp then (true, some { o with cells := o.cells ++ fp })
      else (false, some o)

/-- Modelled from the spec: `Point.draw_main_shapes`
(`map_machine.pictogram.point`, not in the corpus) — the main icon
claims its footprint in the tracker if enabled; a claim failure means
the icon is silently skipped. -/
def Point.draw_main_shapes (p : Point) (occ : Option Occupied) :
    List Primitive × Option Occupied :=
  let r := tryClaim occ p.mainCells
  (if r.1 then [Primitive.mainIcon p.id] else [], r.2)

/-- Helper for the extra-icon loop: each extra icon is occupancy-checked
independently, in order. -/
def drawExtrasFrom (pid : ℕ) : ℕ → List Footprint → Option Occupied →
    List Primitive × Option Occupied
  | _, [], occ => ([], occ)
  | k, fp :: rest, occ =>
      let r := tryClaim occ fp
      let rec_ := drawExtrasFrom pid (k + 1) rest r.2
      ((if r.1 then [Primitive.extraIcon pid k] else []) ++ rec_.1, rec_.2)

/-- Modelled from the spec: `Point.draw_extra_shapes` — the extra icons
of the point, drawn in their resolved order, each occupancy-checked. -/
def Point.draw_extra_shapes (p : Point) (occ : Option Occupied) :
    List Primitive × Option Occupied :=
  drawExtrasFrom p.id 0 p.extraIcons occ

/-- Modelled from the spec: `Point.draw_texts` — label placement with an
occupancy claim, skipped silently on failure. -/
def Point.draw_texts (p : Point) (occ : Option Occupied) :
    List Primitive × Option Occupied :=
  let r := tryClaim occ p.labelCells
  (if r.1 then [Primitive.label p.id] else [], r.2)

/-- One `for node in nodes:` loop of `Map.draw`, threading the occupancy
tracker through the per-point drawing calls and emitting the produced
primitives in order. -/
def drawPass (f : Point → Option Occupied → List Primitive × Option Occupied) :
    List Point → Option Occupied → List Primitive × Option Occupied
  | [], occ => ([], occ)
  | p :: ps, occ =>
      let r := f p occ
      let rest := drawPass f ps r.2
      (r.1 ++ rest.1, rest.2)

/-- Descending point priority (`sorted(constructor.points, key=lambda
x: -x.priority)`); Python's sort is stable, like `insertionSort`. -/
def ptLe (a b : Point) : Prop := b.priority ≤ a.priority

instance : DecidableRel ptLe := fun a b =>
  inferInstanceAs (Decidable (b.priority ≤ a.priority))

instance : IsTotal Point ptLe := ⟨fun a b => le_total b.priority a.priority⟩

instance : IsTrans Point ptLe := ⟨fun _ _ _ hab hbc => le_trans hbc hab⟩

/-- The tracker construction in `Map.draw` (`mapper.py` lines 102-110):
overlap 0 disables tracking; otherwise a tracker sized to the canvas is
created with the configured tolerance. -/
def Map.makeOccupied (m : Map) : Option Occupied :=
  if m.configuration.overlap = 0 then none
  else some ⟨m.flinger.sizeW, m.flinger.sizeH, m.configuration.overlap, []⟩

/-- `Map.draw_credits` (`mapper.py` lines 210-250): each credit line is
drawn twice (outline stroke pass, then fill pass); the data credit is
appended when configured. -/
def Map.draw_credits (m : Map) : List Primitive :=
  let creditList : List String :=
    ["Rendering: map-machine"] ++
      (match m.configuration.credit with
       | none => []
       | some d => ["Data: " ++ d])
  (creditList.map (fun t => [Primitive.credit t, Primitive.credit t])).flatten

/-- Insertion into the `walls: dict[Segment, Building]` of
`Map.draw_buildings`: an existing key keeps its position and gets the
new value, a new key is appended (Python dict semantics). -/
def wallsInsert : List (Segment × Building) → Segment → Building →
    List (Segment × Building)
  | [], k, v => [(k, v)]
  | (k', v') :: rest, k, v =>
      if k' = k then (k', v) :: rest else (k', v') :: wallsInsert rest k v

/-- Lookup in the walls dictionary. -/
def wallsLookup : List (Segment × Building) → Segment → Option Building
  | [], _ => none
  | (k', v') :: rest, k => if k' = k then some v' else wallsLookup rest k

/-- The walls dictionary of `Map.draw_buildings` (`mapper.py` lines
152-156): every part of every building is keyed by its geometric
identity, later buildings overwriting earlier owners of a shared part. -/
def buildWallsDict (bs : List Building) : List (Segment × Building) :=
  bs.foldl (fun m b => b.parts.foldl (fun m' part => wallsInsert m' part b) m) []

/-- Modelled from the spec: the total order used by
`sorted(walls.keys())` (`Segment.__lt__` lives in
`map_machine.geometry.vector`, not in the corpus) — a canonical total
order on segment identity. -/
def segLe (s t : Segment) : Prop :=
  Encodable.encode (s.point1, s.point2) ≤ Encodable.encode (t.point1, t.point2)

instance : DecidableRel segLe := fun _ _ =>
  inferInstanceAs (Decidable (_ ≤ _))

instance : IsTotal Segment segLe := ⟨fun _ _ => le_total _ _⟩

instance : IsTrans Segment segLe := ⟨fun _ _ _ hab hbc => le_trans hab hbc⟩

/-- `sorted(constructor.heights)`: the distinct recorded building
heights in ascending order. -/
def sortedHeights (c : Constructor) : List ℚ :=
  c.heights.sort (· ≤ ·)

/-- The inner wall loop of one height slice (`mapper.py` lines 168-173):
every sorted wall segment whose owning building reaches the slice yields
one wall primitive spanning the previous and current slice heights. -/
def wallsAtSlice (walls : List (Segment × Building)) (sw : List Segment)
    (prev h : ℚ) : List Primitive :=
  sw.filterMap (fun w =>
    match wallsLookup walls w with
    | none => none
    | some b =>
        if b.height < h ∨ b.min_height ≥ h then none
        else some (Primitive.wall w b.id prev h))

/-- The roof loop of one height slice (`mapper.py` lines 176-178):
buildings whose height equals the slice get their roof drawn. -/
def roofsAtSlice (bs : List Building) (h : ℚ) : List Primitive :=
  (bs.filter (fun b => b.height = h)).map (fun b => Primitive.roof b.id h)

/-- The height-slice loop of `Map.draw_buildings` (`mapper.py` lines
160-180): for each slice height, walls of buildings reaching the slice
are drawn, then (when configured) roofs of buildings whose height equals
the slice, with the previous slice height threaded through. -/
def wallSlices (cfg : MapConfiguration) (walls : List (Segment × Building))
    (sw : List Segment) (bs : List Building) : ℚ → List ℚ → List Primitive
  | _, [] => []
  | prev, h :: rest =>
      wallsAtSlice walls sw prev h
      ++ (if cfg.draw_roofs then roofsAtSlice bs h else [])
      ++ wallSlices cfg walls sw bs h rest

/-- `Map.draw_buildings` (`mapper.py` lines 135-180): nothing in NO
mode, flat fills in FLAT mode, otherwise the shade group followed by the
height-sliced wall/roof passes over the deduplicated, sorted wall
segments. -/
def Map.draw_buildings (m : Map) (c : Constructor) : List Primitive :=
  if m.configuration.building_mode = BuildingMode.no then []
  else if m.configuration.building_mode = BuildingMode.flat then
    c.buildings.map (fun b => Primitive.buildingFlat b.id)
  else
    let walls := buildWallsDict c.buildings
    let sw := List.insertionSort segLe (walls.map Prod.fst)
    Primitive.buildingShade ::
      wallSlices m.configuration walls sw c.buildings 0 (sortedHeights c)

/-- `Map.draw` (`mapper.py` lines 58-133): background, low-priority
figures, the road layer, high-priority figures, trees, craters,
buildings, direction sectors, the three point passes (main icons, extra
icons, labels) threading one occupancy tracker, and the credits. -/
def Map.draw (m : Map) (c : Constructor) : List Primitive :=
  let figures := c.get_sorted_figures
  let top := figures.filter (fun x => ROAD_PRIORITY ≤ x.lineStyle.priority)
  let bottom := figures.filter (fun x => x.lineStyle.priority < ROAD_PRIORITY)
  let occupied := m.makeOccupied
  let nodes := List.insertionSort ptLe c.points
  let mains := drawPass Point.draw_main_shapes nodes occupied
  let extras := drawPass Point.draw_extra_shapes nodes mains.2
  let labels := drawPass
    (fun p occ =>
      if ¬ m.configuration.wireframe ∧ m.configuration.label_mode ≠ LabelMode.no
      then p.draw_texts occ else ([], occ))
    nodes extras.2
  Primitive.background ::
    (bottom.filterMap drawFigure
      ++ c.roadLayer.map Primitive.roadElem
      ++ top.filterMap drawFigure
      ++ c.trees.map Primitive.tree
      ++ c.craters.map Primitive.crater
      ++ m.draw_buildings c
      ++ c.direction_sectors.map Primitive.directionSector
      ++ mains.1 ++ extras.1 ++ labels.1
      ++ m.draw_credits)

/-- The direction vector of a road half-edge. -/
def RoadPart.dir (p : RoadPart) : ℚ × ℚ :=
  (p.point2.1 - p.point1.1, p.point2.2 - p.point1.2)

/-- Modelled from the spec: a monotone rational encoding of the angle of
a direction vector (the "diamond angle" surrogate for `atan2`), used to
order half-edges by angle around a junction node. -/
def pseudoAngle (v : ℚ × ℚ) : ℚ :=
  let x := v.1
  let y := v.2
  if 0 ≤ y then
    (if 0 ≤ x then (if x + y = 0 then 0 else y / (x + y))
     else (if y - x = 0 then 1 else 1 + (-x) / (y - x)))
  else
    (if x < 0 then (if (-x) + (-y) = 0 then 2 else 2 + (-y) / ((-x) + (-y)))
     else (if x - y = 0 then 3 else 3 + x / (x - y)))

/-- All fields of a road half-edge, for injective encoding. -/
def RoadPart.toTuple (p : RoadPart) :
    (ℚ × ℚ) × (ℚ × ℚ) × ℕ × ℚ × ℕ × ℕ × Bool :=
  (p.point1, p.point2, p.lanes, p.scale, p.roadIdx, p.segIdx, p.forward)

theorem RoadPart.toTuple_injective : Function.Injective RoadPart.toTuple := by
  intro a b h
  cases a
  cases b
  simpa [RoadPart.toTuple, and_assoc] using h

/-- Modelled from the spec: the angular sort key of a half-edge around a
node — the pseudo-angle of its direction, tie-broken by a stable
injective secondary key so repeated runs produce identical geometry. -/
def partKey (p : RoadPart) : ℚ × ℕ :=
  (pseudoAngle p.dir, Encodable.encode p.toTuple)

/-- Lexicographic order on the angular sort keys. -/
def partLe (a b : RoadPart) : Prop :=
  (partKey a).1 < (partKey b).1 ∨
    ((partKey a).1 = (partKey b).1 ∧ (partKey a).2 ≤ (partKey b).2)

instance : DecidableRel partLe := fun _ _ =>
  inferInstanceAs (Decidable (_ ∨ _))

instance : IsTotal RoadPart partLe := by
  constructor
  intro a b
  rcases lt_trichotomy (partKey a).1 (partKey b).1 with h | h | h
  · exact Or.inl (Or.inl h)
  · rcases le_total (partKey a).2 (partKey b).2 with h2 | h2
    · exact Or.inl (Or.inr ⟨h, h2⟩)
    · exact Or.inr (Or.inr ⟨h.symm, h2⟩)
  · exact Or.inr (Or.inl h)

instance : IsTrans RoadPart partLe := by
  constructor
  intro a b c hab hbc
  rcases hab with h1 | ⟨e1, l1⟩
  · rcases hbc with h2 | ⟨e2, _⟩
    · exact Or.inl (lt_trans h1 h2)
    · exact Or.inl (e2 ▸ h1)
  · rcases hbc with h2 | ⟨e2, l2⟩
    · exact Or.inl (e1 ▸ h2)
    · exact Or.inr ⟨e1.trans e2, le_trans l1 l2⟩

instance : IsAntisymm RoadPart partLe := by
  constructor
  intro a b hab hba
  have hk : partKey a = partKey b := by
    rcases hab with h1 | ⟨e1, l1⟩
    · rcases hba with h2 | ⟨e2, _⟩
      · exact absurd (lt_trans h1 h2) (lt_irrefl _)
      · exact absurd h1 (e2 ▸ lt_irrefl _)
    · rcases hba with h2 | ⟨e2, l2⟩
      · exact absurd h2 (e1 ▸ lt_irrefl _)
      · exact Prod.ext e1 (le_antisymm l1 l2)
  have henc : Encodable.encode a.toTuple = Encodable.encode b.toTuple :=
    congrArg Prod.snd hk
  exact RoadPart.toTuple_injective (Encodable.encode_injective henc)

/-- Modelled from the spec: `Intersection` (`map_machine.feature.road`,
not in the corpus) orders the incident half-edges by angle around the
node, ties broken by the stable secondary key. -/
def intersectionParts (parts : List RoadPart) : List RoadPart :=
  List.insertionSort partLe parts

/-- Key-presence initialization of the node dictionary of
`Map.draw_simple_roads`: a new key is appended with an empty part set. -/
def ensureKey (m : List (ℕ × Finset RoadPart)) (n : ℕ) :
    List (ℕ × Finset RoadPart) :=
  if n ∈ m.map Prod.fst then m else m ++ [(n, ∅)]

/-- Adding a half-edge to a node's part set (the key is present). -/
def addToKey (m : List (ℕ × Finset RoadPart)) (n : ℕ) (p : RoadPart) :
    List (ℕ × Finset RoadPart) :=
  m.map (fun kv => if kv.1 = n then (kv.1, insert p kv.2) else kv)

/-- One iteration of the inner segment loop of `Map.draw_simple_roads`
(`mapper.py` lines 187-202): both directed half-edges of the segment are
registered on its two endpoint nodes. -/
def roadSegStep (fl : Flinger) (ri : ℕ) (road : Road)
    (m : List (ℕ × Finset RoadPart)) (i : ℕ) : List (ℕ × Finset RoadPart) :=
  match road.nodes.get? i, road.nodes.get? (i + 1) with
  | some n1, some n2 =>
      let p1 := fl.fling n1.coordinates
      let p2 := fl.fling n2.coordinates
      let sc := fl.get_scale n1.coordinates
      let part1 : RoadPart := ⟨p1, p2, road.lanes, sc, ri, i, true⟩
      let part2 : RoadPart := ⟨p2, p1, road.lanes, sc, ri, i, false⟩
      let m' := ensureKey (ensureKey m n1.id) n2.id
      addToKey (addToKey m' n1.id part1) n2.id part2
  | _, _ => m

/-- The node dictionary built by `Map.draw_simple_roads`, keys in
insertion order (Python dicts preserve insertion order). -/
def buildRoadDict (fl : Flinger) (roads : List Road) :
    List (ℕ × Finset RoadPart) :=
  roads.enum.foldl
    (fun m rp =>
      (List.range (rp.2.nodes.length - 1)).foldl
        (fun m' i => roadSegStep fl rp.1 rp.2 m' i) m)
    []

/-- `Map.draw_simple_roads` (`mapper.py` lines 182-208): junction
geometry is drawn for every node with at least four incident half-edges.
`order` models the enumeration order of the Python `set` in
`list(parts)`, the one input-independent ordering in the routine. -/
def Map.draw_simple_roads (m : Map) (roads : List Road)
    (order : Finset RoadPart → List RoadPart) : List Primitive :=
  ((buildRoadDict m.flinger roads).map (fun kv =>
    if kv.2.card < 4 then []
    else [Primitive.junction kv.1 (intersectionParts (order kv.2))])).flatten

/-- The set of road half-edges incident to a node, as accumulated by
`Map.draw_simple_roads`. -/
def incidentParts (fl : Flinger) (roads : List Road) (n : ℕ) :
    Finset RoadPart :=
  match (buildRoadDict fl roads).lookup n with
  | some s => s
  | none => ∅

/-- One shape layer of an icon: shape identifier plus color
(`map_machine.pictogram.icon.ShapeSpecification`). -/
structure ShapeSpecification where
  shapeId : String
  color : String
deriving DecidableEq

/-- An icon: an ordered stack of shape layers
(`map_machine.pictogram.icon.Icon`). -/
structure Icon where
  shapeSpecifications : List ShapeSpecification
deriving DecidableEq

/-- The resolved visual of one element
(`map_machine.pictogram.icon.IconSet`). -/
structure IconSet where
  mainIcon : Icon
  extraIcons : List Icon
deriving DecidableEq

/-- The scheme-wide default icon color. -/
def default_color : String := "#444444"

/-- The scheme-wide extra icon color. -/
def extra_color : String := "#888888"

/-- Tag lookup by key. -/
def lookupTag : List (String × String) → String → Option String
  | [], _ => none
  | (k', v) :: rest, k => if k' = k then some v else lookupTag rest k

/-- Whether a character is a decimal digit, for the regex-parameterized
`maxspeed` rule. -/
def isDigitChar (c : Char) : Bool :=
  decide ('0' ≤ c) && decide (c ≤ '9')

/-- The synthesized default main icon: the default shape, colored with
an explicit `colour` tag override when present, else the scheme default
color. -/
def defaultIcon (tags : List (String × String)) : Icon :=
  match lookupTag tags "colour" with
  | some c => ⟨[⟨"default", c⟩]⟩
  | none => ⟨[⟨"default", default_color⟩]⟩

/-- Modelled from the spec: `Scheme.get_icon` (`map_machine.scheme`, not
in the corpus) restricted to the rules the claims exercise.  Main rules
are matched first-wins; the regex-parameterized `traffic_sign=maxspeed`
rule extracts the digits of the `maxspeed` value and synthesizes a
circular frame shape followed by one white digit glyph per digit.  Extra
rules are evaluated independently and appended in declaration order
(`bicycle=yes` before `access=private`). -/
def get_icon (tags : List (String × String)) : IconSet :=
  let main : Icon :=
    match lookupTag tags "traffic_sign", lookupTag tags "maxspeed" with
    | some v, some speed =>
        if v = "maxspeed" ∧ speed ≠ "" ∧ speed.data.all isDigitChar = true then
          ⟨⟨"circle_11", default_color⟩ ::
            speed.data.map
              (fun c => ⟨"digit_" ++ String.singleton c, "white"⟩)⟩
        else defaultIcon tags
    | _, _ => defaultIcon tags
  let extras : List Icon :=
    (if lookupTag tags "bicycle" = some "yes" then
       [⟨[⟨"bicycle", extra_color⟩]⟩] else [])
    ++ (if lookupTag tags "access" = some "private" then
          [⟨[⟨"lock_with_keyhole", extra_color⟩]⟩] else [])
  ⟨main, extras⟩

/-! ## Claim theorems -/

/-- C9: Resolving the tag mapping
`{"traffic_sign": "maxspeed", "maxspeed": "42"}` yields an IconSet whose
main icon is composed of exactly three shape layers in order — a
circular frame shape, then the digit glyph for 4, then the digit glyph
for 2, each digit glyph colored white — and whose extra-icon list is
empty. -/
theorem C9_maxspeed_icon :
    get_icon [("traffic_sign", "maxspeed"), ("maxspeed", "42")] =
      ⟨⟨[⟨"circle_11", default_color⟩, ⟨"digit_4", "white"⟩,
          ⟨"digit_2", "white"⟩]⟩, []⟩ := by
  decide

theorem tryClaim_none (fp : Footprint) : tryClaim none fp = (true, none) := rfl

theorem drawExtrasFrom_none (pid : ℕ) :
    ∀ (k : ℕ) (fps : List Footprint),
      drawExtrasFrom pid k fps none =
        ((List.range fps.length).map (fun j => Primitive.extraIcon pid (k + j)),
          none)
  | _, [] => by simp [drawExtrasFrom]
  | k, fp :: rest => by
      simp only [drawExtrasFrom, tryClaim_none, drawExtrasFrom_none pid (k + 1) rest]
      simp [List.range_succ_eq_map, List.map_map, Function.comp_def,
        Nat.add_assoc, Nat.add_comm 1]

theorem drawPass_none {f : Point → Option Occupied → List Primitive × Option Occupied}
    {g : Point → List Primitive} (hfg : ∀ p, f p none = (g p, none)) :
    ∀ l : List Point, drawPass f l none = ((l.map g).flatten, none)
  | [] => by simp [drawPass]
  | p :: ps => by
      simp [drawPass, hfg p, drawPass_none hfg ps]

theorem flatten_map_singleton {α β : Type} (f : α → β) (l : List α) :
    (l.map (fun a => [f a])).flatten = l.map f := by
  induction l with
  | nil => rfl
  | cons a l ih => simp [ih]

/-- C7: When the configured overlap tolerance equals 0, occupancy
tracking is disabled entirely: no tracker is constructed, and in the
main-icon, extra-icon and label passes of the render no icon or label is
ever suppressed (every one is emitted); for any nonzero tolerance a
tracker sized to the canvas is created for those passes. -/
theorem C7_overlap_gate (m : Map) (c : Constructor) :
    (m.configuration.overlap = 0 →
      m.makeOccupied = none ∧
      (drawPass Point.draw_main_shapes (List.insertionSort ptLe c.points)
          m.makeOccupied).1 =
        (List.insertionSort ptLe c.points).map
          (fun p => Primitive.mainIcon p.id) ∧
      (drawPass Point.draw_extra_shapes (List.insertionSort ptLe c.points)
          (drawPass Point.draw_main_shapes (List.insertionSort ptLe c.points)
            m.makeOccupied).2).1 =
        ((List.insertionSort ptLe c.points).map (fun p =>
          (List.range p.extraIcons.length).map
            (fun j => Primitive.extraIcon p.id j))).flatten ∧
      (¬ m.configuration.wireframe ∧
          m.configuration.label_mode ≠ LabelMode.no →
        (drawPass
            (fun p occ =>
              if ¬ m.configuration.wireframe ∧
                  m.configuration.label_mode ≠ LabelMode.no
              then p.draw_texts occ else ([], occ))
            (List.insertionSort ptLe c.points)
            (drawPass Point.draw_extra_shapes (List.insertionSort ptLe c.points)
              (drawPass Point.draw_main_shapes
                (List.insertionSort ptLe c.points) m.makeOccupied).2).2).1 =
          (List.insertionSort ptLe c.points).map
            (fun p => Primitive.label p.id))) ∧
    (m.configuration.overlap ≠ 0 →
      m.makeOccupied =
        some ⟨m.flinger.sizeW, m.flinger.sizeH, m.configuration.overlap, []⟩) := by
  constructor
  · intro h0
    have hocc : m.makeOccupied = none := by simp [Map.makeOccupied, h0]
    have hmainf : ∀ p : Point,
        Point.draw_main_shapes p none = ([Primitive.mainIcon p.id], none) := by
      intro p
      simp [Point.draw_main_shapes, tryClaim]
    have hextraf : ∀ p : Point,
        Point.draw_extra_shapes p none =
          ((List.range p.extraIcons.length).map
            (fun j => Primitive.extraIcon p.id j), none) := by
      intro p
      simp [Point.draw_extra_shapes, drawExtrasFrom_none]
    have hmain := drawPass_none hmainf (List.insertionSort ptLe c.points)
    have hextra := drawPass_none hextraf (List.insertionSort ptLe c.points)
    refine ⟨hocc, ?_, ?_, ?_⟩
    · rw [hocc, hmain]
      simp [flatten_map_singleton]
    · rw [hocc, hmain]
      simp only
      rw [hextra]
    · intro henabled
      have hlab := drawPass_none
        (f := fun (p : Point) (occ : Option Occupied) =>
          if ¬ m.configuration.wireframe ∧
              m.configuration.label_mode ≠ LabelMode.no
          then p.draw_texts occ else ([], occ))
        (g := fun p => [Primitive.label p.id])
        (by
          intro p
          simp only
          rw [if_pos henabled]
          simp [Point.draw_texts, tryClaim])
        (List.insertionSort ptLe c.points)
      rw [hocc, hmain]
      simp only
      rw [hextra]
      simp only
      rw [hlab]
      simp [flatten_map_singleton]
  · intro hne
    simp [Map.makeOccupied, hne]

/-- Concrete point for witnesses. -/
def wPoint7 : Point := ⟨5, 1, [(0, 0)], [[(1, 1)]], [(2, 2)]⟩

/-- Concrete drawable set for the C7 witness. -/
def wCon7 : Constructor := ⟨[], [], [], [], [], ∅, [], [wPoint7]⟩

/-- Concrete map with overlap tolerance 0 for the C7 witness. -/
def wMap7 : Map :=
  ⟨⟨10, 10, fun q => q, fun _ => 1⟩,
    ⟨0, BuildingMode.no, false, LabelMode.all, false, none⟩⟩

/-- Witness for C7 at a concrete input: overlap 0 yields no tracker and
the main icon of the single point is emitted unsuppressed. -/
theorem C7_overlap_gate_witness :
    wMap7.makeOccupied = none ∧
    (drawPass Point.draw_main_shapes (List.insertionSort ptLe wCon7.points)
        wMap7.makeOccupied).1 = [Primitive.mainIcon 5] := by
  have h := (C7_overlap_gate wMap7 wCon7).1 rfl
  refine ⟨h.1, ?_⟩
  rw [h.2.1]
  decide

theorem foldl_preserve {α β : Type} {P : β → Prop} (f : β → α → β)
    (hf : ∀ b a, P b → P (f b a)) :
    ∀ (l : List α) (b : β), P b → P (l.foldl f b)
  | [], _, h => h
  | a :: l, b, h => foldl_preserve f hf l (f b a) (hf b a h)

theorem keys_addToKey (m : List (ℕ × Finset RoadPart)) (n : ℕ) (p : RoadPart) :
    (addToKey m n p).map Prod.fst = m.map Prod.fst := by
  simp only [addToKey, List.map_map]
  apply List.map_congr_left
  intro kv _
  by_cases h : kv.1 = n <;> simp [h, Function.comp_def]

theorem nodup_keys_ensureKey {m : List (ℕ × Finset RoadPart)} (n : ℕ)
    (h : (m.map Prod.fst).Nodup) : ((ensureKey m n).map Prod.fst).Nodup := by
  unfold ensureKey
  split
  · exact h
  · next hmem => simp [List.nodup_append, h, hmem]

theorem nodup_keys_roadSegStep (fl : Flinger) (ri : ℕ) (road : Road)
    {m : List (ℕ × Finset RoadPart)} (i : ℕ)
    (h : (m.map Prod.fst).Nodup) :
    ((roadSegStep fl ri road m i).map Prod.fst).Nodup := by
  unfold roadSegStep
  cases road.nodes.get? i with
  | none => exact h
  | some n1 =>
      cases road.nodes.get? (i + 1) with
      | none => exact h
      | some n2 =>
          simp only [keys_addToKey]
          exact nodup_keys_ensureKey _ (nodup_keys_ensureKey _ h)

theorem nodup_keys_buildRoadDict (fl : Flinger) (roads : List Road) :
    ((buildRoadDict fl roads).map Prod.fst).Nodup := by
  exact foldl_preserve
    (P := fun m : List (ℕ × Finset RoadPart) => (m.map Prod.fst).Nodup) _
    (fun b rp hb =>
      foldl_preserve
        (P := fun m : List (ℕ × Finset RoadPart) => (m.map Prod.fst).Nodup) _
        (fun b' i hb' => nodup_keys_roadSegStep fl rp.1 rp.2 i hb')
        (List.range (rp.2.nodes.length - 1)) b hb)
    roads.enum [] (by simp)

theorem lookup_mem {m : List (ℕ × Finset RoadPart)} {n : ℕ}
    {s : Finset RoadPart} : m.lookup n = some s → (n, s) ∈ m := by
  induction m with
  | nil => intro h; simp [List.lookup] at h
  | cons kv rest ih =>
      obtain ⟨k, v⟩ := kv
      intro h
      rw [List.lookup] at h
      cases hbeq : (n == k) with
      | true =>
          simp only [hbeq, Option.some.injEq] at h
          have hk : n = k := eq_of_beq hbeq
          subst hk
          subst h
          exact List.mem_cons_self _ _
      | false =>
          simp only [hbeq] at h
          exact List.mem_cons_of_mem _ (ih h)

theorem lookup_eq_of_mem {m : List (ℕ × Finset RoadPart)}
    (hnd : (m.map Prod.fst).Nodup) {n : ℕ} {s : Finset RoadPart}
    (hm : (n, s) ∈ m) : m.lookup n = some s := by
  induction m with
  | nil => simp at hm
  | cons kv rest ih =>
      obtain ⟨k, v⟩ := kv
      simp only [List.map_cons, List.nodup_cons] at hnd
      rcases List.mem_cons.mp hm with heq | hmem
      · have hk : n = k := congrArg Prod.fst heq
        have hv : s = v := congrArg Prod.snd heq
        subst hk
        subst hv
        rw [List.lookup]
        simp
      · have hne : n ≠ k := by
          intro hcontra
          apply hnd.1
          subst hcontra
          exact List.mem_map_of_mem Prod.fst hmem

        rw [List.lookup]
        have hbeq : (n == k) = false := by
          simpa using hne
        simp only [hbeq]
        exact ih hnd.2 hmem

/-- C5: For every node shared by road segments, junction geometry is
produced if and only if four or more directed road half-edges are
incident to that node; for three or fewer incident half-edges the output
contains no junction shape for that node. -/
theorem C5_junction_iff (m : Map) (roads : List Road)
    (order : Finset RoadPart → List RoadPart) (n : ℕ) :
    (∃ ps, Primitive.junction n ps ∈ m.draw_simple_roads roads order) ↔
      4 ≤ (incidentParts m.flinger roads n).card := by
  constructor
  · rintro ⟨ps, hmem⟩
    rw [Map.draw_simple_roads, List.mem_flatten] at hmem
    obtain ⟨l, hl, hpl⟩ := hmem
    rw [List.mem_map] at hl
    obtain ⟨kv, hkv, hgkv⟩ := hl
    by_cases hc : kv.2.card < 4
    · rw [if_pos hc] at hgkv
      rw [← hgkv] at hpl
      simp at hpl
    · rw [if_neg hc] at hgkv
      rw [← hgkv] at hpl
      rw [List.mem_singleton] at hpl
      have hn : kv.1 = n := by
        injection hpl.symm with h1 _
      have hlook : (buildRoadDict m.flinger roads).lookup n = some kv.2 := by
        apply lookup_eq_of_mem (nodup_keys_buildRoadDict m.flinger roads)
        rw [← hn]
        exact hkv
      rw [incidentParts, hlook]
      exact Nat.not_lt.mp hc
  · intro hcard
    rw [incidentParts] at hcard
    cases hlook : (buildRoadDict m.flinger roads).lookup n with
    | none => rw [hlook] at hcard; simp at hcard
    | some s =>
        rw [hlook] at hcard
        refine ⟨intersectionParts (order s), ?_⟩
        rw [Map.draw_simple_roads, List.mem_flatten]
        refine ⟨[Primitive.junction n (intersectionParts (order s))], ?_, by simp⟩
        rw [List.mem_map]
        exact ⟨(n, s), lookup_mem hlook, by simp [Nat.not_lt.mpr hcard]⟩

/-- The layer rank of each primitive in the order in which `Map.draw`
actually emits the layers. -/
def codeLayerRank : Primitive → ℕ
  | .background => 0
  | .figure pr _ => if pr < ROAD_PRIORITY then 1 else 3
  | .roadElem _ => 2
  | .junction _ _ => 2
  | .tree _ => 4
  | .crater _ => 4
  | .buildingShade => 5
  | .buildingFlat _ => 5
  | .wall _ _ _ _ => 5
  | .roof _ _ => 5
  | .directionSector _ => 6
  | .mainIcon _ => 7
  | .extraIcon _ _ => 8
  | .label _ => 9
  | .credit _ => 10

/-- The layer rank each primitive would have under the ordering asserted
by the claim (high-priority figures after trees/craters and buildings). -/
def specLayerRank : Primitive → ℕ
  | .background => 0
  | .figure pr _ => if pr < ROAD_PRIORITY then 1 else 5
  | .roadElem _ => 2
  | .junction _ _ => 2
  | .tree _ => 3
  | .crater _ => 3
  | .buildingShade => 4
  | .buildingFlat _ => 4
  | .wall _ _ _ _ => 4
  | .roof _ _ => 4
  | .directionSector _ => 5
  | .mainIcon _ => 6
  | .extraIcon _ _ => 7
  | .label _ => 8
  | .credit _ => 9

theorem mem_wallSlices_shape {cfg : MapConfiguration}
    {walls : List (Segment × Building)} {sw : List Segment}
    {bs : List Building} {p : Primitive} :
    ∀ {prev : ℚ} {hs : List ℚ}, p ∈ wallSlices cfg walls sw bs prev hs →
      (∃ w b lo hi, p = Primitive.wall w b lo hi) ∨
        (∃ b h, p = Primitive.roof b h) := by
  intro prev hs
  induction hs generalizing prev with
  | nil => intro h; simp [wallSlices] at h
  | cons h rest ih =>
      intro hmem
      rw [wallSlices, List.mem_append, List.mem_append] at hmem
      rcases hmem with (hw | hr) | hrec
      · rw [wallsAtSlice, List.mem_filterMap] at hw
        obtain ⟨w, _, hw⟩ := hw
        cases hlk : wallsLookup walls w with
        | none => rw [hlk] at hw; simp at hw
        | some b =>
            simp only [hlk] at hw
            by_cases hcond : b.height < h ∨ b.min_height ≥ h
            · rw [if_pos hcond] at hw; simp at hw
            · rw [if_neg hcond] at hw
              simp only [Option.some.injEq] at hw
              exact Or.inl ⟨w, b.id, prev, h, hw.symm⟩
      · split at hr
        · rw [roofsAtSlice, List.mem_map] at hr
          obtain ⟨b, _, hb⟩ := hr
          exact Or.inr ⟨b.id, h, hb.symm⟩
        · simp at hr
      · exact ih hrec

theorem mem_draw_buildings_shape {m : Map} {c : Constructor} {p : Primitive}
    (hmem : p ∈ m.draw_buildings c) :
    p = Primitive.buildingShade ∨ (∃ b, p = Primitive.buildingFlat b) ∨
      (∃ w b lo hi, p = Primitive.wall w b lo hi) ∨
      (∃ b h, p = Primitive.roof b h) := by
  rw [Map.draw_buildings] at hmem
  split at hmem
  · simp at hmem
  · split at hmem
    · rw [List.mem_map] at hmem
      obtain ⟨b, _, hb⟩ := hmem
      exact Or.inr (Or.inl ⟨b.id, hb.symm⟩)
    · rcases List.mem_cons.mp hmem with heq | htail
      · exact Or.inl heq
      · rcases mem_wallSlices_shape htail with hw | hr
        · exact Or.inr (Or.inr (Or.inl hw))
        · exact Or.inr (Or.inr (Or.inr hr))

theorem mem_drawPass {f : Point → Option Occupied → List Primitive × Option Occupied}
    {p : Primitive} :
    ∀ {l : List Point} {occ : Option Occupied}, p ∈ (drawPass f l occ).1 →
      ∃ q occ', q ∈ l ∧ p ∈ (f q occ').1 := by
  intro l
  induction l with
  | nil => intro occ h; simp [drawPass] at h
  | cons q qs ih =>
      intro occ h
      rw [drawPass] at h
      rcases List.mem_append.mp h with hq | hrest
      · exact ⟨q, occ, List.mem_cons_self _ _, hq⟩
      · obtain ⟨q', occ', hq', hp'⟩ := ih hrest
        exact ⟨q', occ', List.mem_cons_of_mem _ hq', hp'⟩

theorem mem_draw_main_shapes {q : Point} {occ : Option Occupied} {p : Primitive}
    (h : p ∈ (q.draw_main_shapes occ).1) : p = Primitive.mainIcon q.id := by
  rw [Point.draw_main_shapes] at h
  split at h
  · simpa using h
  · simp at h

theorem mem_drawExtrasFrom {pid : ℕ} {p : Primitive} :
    ∀ {k : ℕ} {fps : List Footprint} {occ : Option Occupied},
      p ∈ (drawExtrasFrom pid k fps occ).1 → ∃ j, p = Primitive.extraIcon pid j := by
  intro k fps
  induction fps generalizing k with
  | nil => intro occ h; simp [drawExtrasFrom] at h
  | cons fp rest ih =>
      intro occ h
      rw [drawExtrasFrom, List.mem_append] at h
      rcases h with h1 | h2
      · split at h1
        · exact ⟨k, by simpa using h1⟩
        · simp at h1
      · exact ih h2

theorem mem_draw_extra_shapes {q : Point} {occ : Option Occupied} {p : Primitive}
    (h : p ∈ (q.draw_extra_shapes occ).1) : ∃ j, p = Primitive.extraIcon q.id j :=
  mem_drawExtrasFrom h

theorem mem_draw_texts {q : Point} {occ : Option Occupied} {p : Primitive}
    (h : p ∈ (q.draw_texts occ).1) : p = Primitive.label q.id := by
  rw [Point.draw_texts] at h
  split at h
  · simpa using h
  · simp at h

theorem mem_draw_credits {m : Map} {p : Primitive}
    (h : p ∈ m.draw_credits) : ∃ t, p = Primitive.credit t := by
  rw [Map.draw_credits, List.mem_flatten] at h
  obtain ⟨l, hl, hp⟩ := h
  rw [List.mem_map] at hl
  obtain ⟨t, _, ht⟩ := hl
  rw [← ht] at hp
  rcases List.mem_cons.mp hp with h1 | h2
  · exact ⟨t, h1⟩
  · exact ⟨t, by simpa using h2⟩

theorem sorted_rank_const {f : Primitive → ℕ} {k : ℕ} :
    ∀ {l : List Primitive}, (∀ p ∈ l, f p = k) →
      List.Sorted (· ≤ ·) (l.map f)
  | [], _ => List.sorted_nil
  | p :: l, h => by
      rw [List.map_cons, List.sorted_cons]
      constructor
      · intro b hb
        obtain ⟨q, hq, rfl⟩ := List.mem_map.mp hb
        rw [h p (List.mem_cons_self _ _), h q (List.mem_cons_of_mem _ hq)]
      · exact sorted_rank_const (fun q hq => h q (List.mem_cons_of_mem _ hq))

theorem sorted_blocks_step {f : Primitive → ℕ} {l1 : List Primitive}
    (l2 : List Primitive) {j k : ℕ}
    (h1 : List.Sorted (· ≤ ·) (l1.map f)) (hb1 : ∀ p ∈ l1, f p ≤ j)
    (h2 : ∀ p ∈ l2, f p = k) (hjk : j ≤ k) :
    List.Sorted (· ≤ ·) ((l1 ++ l2).map f) ∧ (∀ p ∈ l1 ++ l2, f p ≤ k) := by
  constructor
  · rw [List.map_append, List.Sorted, List.pairwise_append]
    refine ⟨h1, sorted_rank_const h2, ?_⟩
    intro x hx y hy
    obtain ⟨a, ha, rfl⟩ := List.mem_map.mp hx
    obtain ⟨b, hb, rfl⟩ := List.mem_map.mp hy
    rw [h2 b hb]
    exact le_trans (hb1 a ha) hjk
  · intro p hp
    rcases List.mem_append.mp hp with h | h
    · exact le_trans (hb1 p h) hjk
    · exact le_of_eq (h2 p h)

theorem rank_bottom_figures {c : Constructor} {p : Primitive}
    (h : p ∈ (c.get_sorted_figures.filter
        (fun x => x.lineStyle.priority < ROAD_PRIORITY)).filterMap drawFigure) :
    codeLayerRank p = 1 := by
  rw [List.mem_filterMap] at h
  obtain ⟨x, hx, hdx⟩ := h
  rw [List.mem_filter] at hx
  have hlt : x.lineStyle.priority < ROAD_PRIORITY := by
    simpa using hx.2
  rw [drawFigure] at hdx
  split at hdx
  · simp at hdx
  · simp only [Option.some.injEq] at hdx
    rw [← hdx, codeLayerRank]
    rw [if_pos hlt]

theorem rank_top_figures {c : Constructor} {p : Primitive}
    (h : p ∈ (c.get_sorted_figures.filter
        (fun x => ROAD_PRIORITY ≤ x.lineStyle.priority)).filterMap drawFigure) :
    codeLayerRank p = 3 := by
  rw [List.mem_filterMap] at h
  obtain ⟨x, hx, hdx⟩ := h
  rw [List.mem_filter] at hx
  have hge : ROAD_PRIORITY ≤ x.lineStyle.priority := by
    simpa using hx.2
  rw [drawFigure] at hdx
  split at hdx
  · simp at hdx
  · simp only [Option.some.injEq] at hdx
    rw [← hdx, codeLayerRank]
    rw [if_neg (not_lt.mpr hge)]

/-- C1 (amended): `Map.draw` emits its layers in the fixed order
background, figures below the road threshold, the road layer, figures at
or above the road threshold, trees and craters, buildings, direction
sectors, main icons, extra icons, labels, credits — every element of a
later layer appears after every element of an earlier layer. -/
theorem rank_map_roadElem {l : List ℕ} {p : Primitive}
    (h : p ∈ l.map Primitive.roadElem) : codeLayerRank p = 2 := by
  obtain ⟨i, _, rfl⟩ := List.mem_map.mp h
  rfl

theorem rank_map_tree {l : List ℕ} {p : Primitive}
    (h : p ∈ l.map Primitive.tree) : codeLayerRank p = 4 := by
  obtain ⟨i, _, rfl⟩ := List.mem_map.mp h
  rfl

theorem rank_map_crater {l : List ℕ} {p : Primitive}
    (h : p ∈ l.map Primitive.crater) : codeLayerRank p = 4 := by
  obtain ⟨i, _, rfl⟩ := List.mem_map.mp h
  rfl

theorem rank_map_directionSector {l : List ℕ} {p : Primitive}
    (h : p ∈ l.map Primitive.directionSector) : codeLayerRank p = 6 := by
  obtain ⟨i, _, rfl⟩ := List.mem_map.mp h
  rfl

theorem rank_draw_buildings {m : Map} {c : Constructor} {p : Primitive}
    (h : p ∈ m.draw_buildings c) : codeLayerRank p = 5 := by
  rcases mem_draw_buildings_shape h with
    h1 | ⟨b, h1⟩ | ⟨w, b, lo, hi, h1⟩ | ⟨b, hh, h1⟩ <;> rw [h1] <;> rfl

theorem rank_main_pass {l : List Point} {occ : Option Occupied} {p : Primitive}
    (h : p ∈ (drawPass Point.draw_main_shapes l occ).1) :
    codeLayerRank p = 7 := by
  obtain ⟨q, occ2, _, hq⟩ := mem_drawPass h
  rw [mem_draw_main_shapes hq]
  rfl

theorem rank_extra_pass {l : List Point} {occ : Option Occupied} {p : Primitive}
    (h : p ∈ (drawPass Point.draw_extra_shapes l occ).1) :
    codeLayerRank p = 8 := by
  obtain ⟨q, occ2, _, hq⟩ := mem_drawPass h
  obtain ⟨j, hj⟩ := mem_draw_extra_shapes hq
  rw [hj]
  rfl

theorem rank_label_pass {w : Bool} {lm : LabelMode} {l : List Point}
    {occ : Option Occupied} {p : Primitive}
    (h : p ∈ (drawPass
      (fun q occ2 =>
        if ¬ w ∧ lm ≠ LabelMode.no then q.draw_texts occ2 else ([], occ2))
      l occ).1) :
    codeLayerRank p = 9 := by
  obtain ⟨q, occ2, _, hq⟩ := mem_drawPass h
  split at hq
  · rw [mem_draw_texts hq]
    rfl
  · simp at hq

theorem rank_draw_credits {m : Map} {p : Primitive}
    (h : p ∈ m.draw_credits) : codeLayerRank p = 10 := by
  obtain ⟨t, ht⟩ := mem_draw_credits h
  rw [ht]
  rfl

set_option maxHeartbeats 2000000 in
/-- C1 (amended): `Map.draw` emits its layers in the fixed order
background, figures below the road threshold, the road layer, figures at
or above the road threshold, trees and craters, buildings, direction
sectors, main icons, extra icons, labels, credits — every element of a
later layer appears after every element of an earlier layer. -/
theorem C1_amended_layer_order (m : Map) (c : Constructor) :
    List.Sorted (· ≤ ·) ((m.draw c).map codeLayerRank) := by
  rw [Map.draw]
  rw [List.map_cons, List.sorted_cons]
  constructor
  · intro b _
    exact Nat.zero_le b
  · have step1 := sorted_blocks_step (f := codeLayerRank) (j := 1) (k := 2)
      (c.roadLayer.map Primitive.roadElem)
      (sorted_rank_const (fun p hp => rank_bottom_figures (c := c) hp))
      (fun p hp => le_of_eq (rank_bottom_figures (c := c) hp))
      (fun p hp => rank_map_roadElem hp)
      (by norm_num)
    have step2 := sorted_blocks_step (f := codeLayerRank) (j := 2) (k := 3)
      ((c.get_sorted_figures.filter
        (fun x => ROAD_PRIORITY ≤ x.lineStyle.priority)).filterMap drawFigure)
      step1.1 step1.2
      (fun p hp => rank_top_figures hp) (by norm_num)
    have step3 := sorted_blocks_step (f := codeLayerRank) (j := 3) (k := 4)
      (c.trees.map Primitive.tree)
      step2.1 step2.2
      (fun p hp => rank_map_tree hp) (by norm_num)
    have step4 := sorted_blocks_step (f := codeLayerRank) (j := 4) (k := 4)
      (c.craters.map Primitive.crater)
      step3.1 step3.2
      (fun p hp => rank_map_crater hp) (by norm_num)
    have step5 := sorted_blocks_step (f := codeLayerRank) (j := 4) (k := 5)
      (m.draw_buildings c)
      step4.1 step4.2
      (fun p hp => rank_draw_buildings hp) (by norm_num)
    have step6 := sorted_blocks_step (f := codeLayerRank) (j := 5) (k := 6)
      (c.direction_sectors.map Primitive.directionSector)
      step5.1 step5.2
      (fun p hp => rank_map_directionSector hp) (by norm_num)
    have step7 := sorted_blocks_step (f := codeLayerRank) (j := 6) (k := 7)
      ((drawPass Point.draw_main_shapes (List.insertionSort ptLe c.points)
        m.makeOccupied).1)
      step6.1 step6.2
      (fun p hp => rank_main_pass hp) (by norm_num)
    have step8 := sorted_blocks_step (f := codeLayerRank) (j := 7) (k := 8)
      ((drawPass Point.draw_extra_shapes (List.insertionSort ptLe c.points)
        (drawPass Point.draw_main_shapes (List.insertionSort ptLe c.points)
          m.makeOccupied).2).1)
      step7.1 step7.2
      (fun p hp => rank_extra_pass hp) (by norm_num)
    have step9 := sorted_blocks_step (f := codeLayerRank) (j := 8) (k := 9)
      ((drawPass
        (fun p occ =>
          if ¬ m.configuration.wireframe ∧
              m.configuration.label_mode ≠ LabelMode.no
          then p.draw_texts occ else ([], occ))
        (List.insertionSort ptLe c.points)
        (drawPass Point.draw_extra_shapes (List.insertionSort ptLe c.points)
          (drawPass Point.draw_main_shapes (List.insertionSort ptLe c.points)
            m.makeOccupied).2).2).1)
      step8.1 step8.2
      (fun p hp => rank_label_pass hp) (by norm_num)
    have step10 := sorted_blocks_step (f := codeLayerRank) (j := 9) (k := 10)
      (m.draw_credits)
      step9.1 step9.2
      (fun p hp => rank_draw_credits hp) (by norm_num)
    exact step10.1

/-- Concrete styled figure at the road-priority threshold (drawn in the
high-priority figure pass). -/
def cexFigure : StyledFigure := ⟨⟨40, "s"⟩, "p"⟩

/-- Concrete drawable set for the C1 counterexample: one high-priority
figure and one crater. -/
def cexCon : Constructor := ⟨[cexFigure], [], [], [0], [], ∅, [], []⟩

/-- Concrete map for the C1 counterexample. -/
def cexMap : Map :=
  ⟨⟨1, 1, fun q => q, fun _ => 1⟩,
    ⟨0, BuildingMode.no, false, LabelMode.no, false, none⟩⟩

/-- C1 counterexample: on this input the emitted document violates the
claim's layer ranking — the figure at or above the road threshold (the
claim's layer 6) is emitted directly after the road layer, before the
crater overlay (the claim's layer 4). -/
theorem C1_counterexample :
    ¬ List.Sorted (· ≤ ·) ((cexMap.draw cexCon).map specLayerRank) := by
  decide

/-- C2: The figures strictly below `ROAD_PRIORITY` — and no others — are
drawn before the dedicated road layer, those at or above it after; the
road layer contains no figure primitive and figure primitives occur
nowhere later in the document; within each group the figures are in
ascending priority order. -/
theorem C2_priority_split (m : Map) (c : Constructor) :
    ∃ rest : List Primitive,
      m.draw c =
        Primitive.background ::
          (((c.get_sorted_figures.filter
              (fun x => x.lineStyle.priority < ROAD_PRIORITY)).filterMap
                drawFigure)
            ++ (c.roadLayer.map Primitive.roadElem
            ++ (((c.get_sorted_figures.filter
                (fun x => ROAD_PRIORITY ≤ x.lineStyle.priority)).filterMap
                  drawFigure)
            ++ rest)))
      ∧ (∀ pr path, Primitive.figure pr path ∉ rest)
      ∧ (∀ pr path,
          Primitive.figure pr path ∉ c.roadLayer.map Primitive.roadElem)
      ∧ List.Sorted figLe (c.get_sorted_figures.filter
          (fun x => x.lineStyle.priority < ROAD_PRIORITY))
      ∧ List.Sorted figLe (c.get_sorted_figures.filter
          (fun x => ROAD_PRIORITY ≤ x.lineStyle.priority)) := by
  refine ⟨c.trees.map Primitive.tree
      ++ (c.craters.map Primitive.crater
      ++ (m.draw_buildings c
      ++ (c.direction_sectors.map Primitive.directionSector
      ++ ((drawPass Point.draw_main_shapes (List.insertionSort ptLe c.points)
            m.makeOccupied).1
      ++ ((drawPass Point.draw_extra_shapes (List.insertionSort ptLe c.points)
            (drawPass Point.draw_main_shapes (List.insertionSort ptLe c.points)
              m.makeOccupied).2).1
      ++ ((drawPass
            (fun p occ =>
              if ¬ m.configuration.wireframe ∧
                  m.configuration.label_mode ≠ LabelMode.no
              then p.draw_texts occ else ([], occ))
            (List.insertionSort ptLe c.points)
            (drawPass Point.draw_extra_shapes (List.insertionSort ptLe c.points)
              (drawPass Point.draw_main_shapes
                (List.insertionSort ptLe c.points) m.makeOccupied).2).2).1
      ++ m.draw_credits)))))), ?_, ?_, ?_, ?_, ?_⟩
  · rw [Map.draw]
    simp only [List.append_assoc]
  · intro pr path hmem
    simp only [List.mem_append] at hmem
    rcases hmem with h | (h | (h | (h | (h | (h | (h | h))))))
    · obtain ⟨i, _, heq⟩ := List.mem_map.mp h
      exact Primitive.noConfusion heq
    · obtain ⟨i, _, heq⟩ := List.mem_map.mp h
      exact Primitive.noConfusion heq
    · rcases mem_draw_buildings_shape h with
        h1 | ⟨b, h1⟩ | ⟨w, b, lo, hi, h1⟩ | ⟨b, hh, h1⟩ <;>
        exact Primitive.noConfusion h1
    · obtain ⟨i, _, heq⟩ := List.mem_map.mp h
      exact Primitive.noConfusion heq
    · obtain ⟨q, occ2, _, hq⟩ := mem_drawPass h
      exact Primitive.noConfusion (mem_draw_main_shapes hq)
    · obtain ⟨q, occ2, _, hq⟩ := mem_drawPass h
      obtain ⟨j, hj⟩ := mem_draw_extra_shapes hq
      exact Primitive.noConfusion hj
    · obtain ⟨q, occ2, _, hq⟩ := mem_drawPass h
      split at hq
      · exact Primitive.noConfusion (mem_draw_texts hq)
      · simp at hq
    · obtain ⟨t, ht⟩ := mem_draw_credits h
      exact Primitive.noConfusion ht
  · intro pr path hmem
    obtain ⟨i, _, heq⟩ := List.mem_map.mp hmem
    exact Primitive.noConfusion heq
  · exact (List.sorted_insertionSort figLe c.figures).sublist
      (List.filter_sublist _)
  · exact (List.sorted_insertionSort figLe c.figures).sublist
      (List.filter_sublist _)

theorem roof_not_mem_wallsAtSlice {walls : List (Segment × Building)}
    {sw : List Segment} {prev h' : ℚ} {bid : ℕ} {h : ℚ} :
    Primitive.roof bid h ∉ wallsAtSlice walls sw prev h' := by
  intro hmem
  rw [wallsAtSlice, List.mem_filterMap] at hmem
  obtain ⟨w, _, hw⟩ := hmem
  cases hlk : wallsLookup walls w with
  | none => rw [hlk] at hw; simp at hw
  | some b =>
      simp only [hlk] at hw
      split at hw
      · simp at hw
      · simp only [Option.some.injEq] at hw
        exact Primitive.noConfusion hw

theorem mem_roof_wallSlices {cfg : MapConfiguration}
    {walls : List (Segment × Building)} {sw : List Segment}
    {bs : List Building} {bid : ℕ} {h : ℚ} :
    ∀ {prev : ℚ} {hs : List ℚ},
      Primitive.roof bid h ∈ wallSlices cfg walls sw bs prev hs ↔
        (cfg.draw_roofs = true ∧ h ∈ hs ∧
          ∃ b ∈ bs, b.id = bid ∧ b.height = h) := by
  intro prev hs
  induction hs generalizing prev with
  | nil => simp [wallSlices]
  | cons h' rest ih =>
      rw [wallSlices, List.mem_append, List.mem_append]
      constructor
      · rintro hmemw
        rcases hmemw with (hw | hr) | hrec
        · exact absurd hw roof_not_mem_wallsAtSlice
        · split at hr
          · next hroofs =>
              rw [roofsAtSlice, List.mem_map] at hr
              obtain ⟨b, hb, heq⟩ := hr
              rw [List.mem_filter] at hb
              have hbh : b.height = h' := by simpa using hb.2
              injection heq with hbid hh
              refine ⟨hroofs, ?_, b, hb.1, hbid, ?_⟩
              · rw [← hh]
                exact List.mem_cons_self _ _
              · rw [← hh]
                exact hbh
          · simp at hr
        · obtain ⟨hroofs, hmem, hex⟩ := ih.mp hrec
          exact ⟨hroofs, List.mem_cons_of_mem _ hmem, hex⟩
      · rintro ⟨hroofs, hmem, b, hb, hbid, hbh⟩
        rcases List.mem_cons.mp hmem with heq | hmemr
        · left
          right
          rw [if_pos hroofs, roofsAtSlice, List.mem_map]
          refine ⟨b, ?_, ?_⟩
          · rw [List.mem_filter]
            refine ⟨hb, by simp [hbh, heq]⟩
          · rw [hbid, ← heq]
        · right
          exact ih.mpr ⟨hroofs, hmemr, b, hb, hbid, hbh⟩

theorem draw_buildings_isometric (m : Map) (c : Constructor)
    (hmode : m.configuration.building_mode = BuildingMode.isometric) :
    m.draw_buildings c =
      Primitive.buildingShade ::
        wallSlices m.configuration (buildWallsDict c.buildings)
          (List.insertionSort segLe ((buildWallsDict c.buildings).map Prod.fst))
          c.buildings 0 (sortedHeights c) := by
  rw [Map.draw_buildings, hmode]
  simp

theorem wallSlices_slice_decomp {cfg : MapConfiguration}
    {walls : List (Segment × Building)} {sw : List Segment}
    {bs : List Building} (hroofs : cfg.draw_roofs = true) {h : ℚ} :
    ∀ {prev0 : ℚ} {hs : List ℚ}, h ∈ hs → ∃ prev l1 l2,
      wallSlices cfg walls sw bs prev0 hs =
        l1 ++ (wallsAtSlice walls sw prev h ++ roofsAtSlice bs h) ++ l2 := by
  intro prev0 hs
  induction hs generalizing prev0 with
  | nil => intro hmem; simp at hmem
  | cons h' rest ih =>
      intro hmem
      rcases List.mem_cons.mp hmem with heq | hmemr
      · subst heq
        refine ⟨prev0, [], wallSlices cfg walls sw bs h rest, ?_⟩
        rw [wallSlices, if_pos hroofs]
        simp [List.append_assoc]
      · obtain ⟨prev, l1, l2, hdecomp⟩ := @ih h' hmemr
        refine ⟨prev,
          (wallsAtSlice walls sw prev0 h'
            ++ (if cfg.draw_roofs then roofsAtSlice bs h' else [])) ++ l1,
          l2, ?_⟩
        rw [wallSlices, hdecomp]
        simp [List.append_assoc]

/-- C10: Roof caps are drawn only when `draw_roofs` is enabled — in the
extruded pass a roof primitive appears iff `draw_roofs` is true and the
building's height equals a recorded slice height, and with `draw_roofs`
enabled each slice's roofs are emitted directly after that slice's
walls. -/
theorem C10_roofs_gate (m : Map) (c : Constructor)
    (hmode : m.configuration.building_mode = BuildingMode.isometric) :
    (∀ bid h, Primitive.roof bid h ∈ m.draw_buildings c ↔
       (m.configuration.draw_roofs = true ∧ h ∈ sortedHeights c ∧
         ∃ b ∈ c.buildings, b.id = bid ∧ b.height = h)) ∧
    (m.configuration.draw_roofs = true →
      ∀ h ∈ sortedHeights c, ∃ prev l1 l2,
        m.draw_buildings c =
          l1 ++ (wallsAtSlice (buildWallsDict c.buildings)
              (List.insertionSort segLe
                ((buildWallsDict c.buildings).map Prod.fst)) prev h
            ++ roofsAtSlice c.buildings h) ++ l2) := by
  constructor
  · intro bid h
    rw [draw_buildings_isometric m c hmode]
    rw [List.mem_cons]
    constructor
    · rintro (heq | hmem)
      · exact Primitive.noConfusion heq
      · exact mem_roof_wallSlices.mp hmem
    · intro hx
      exact Or.inr (mem_roof_wallSlices.mpr hx)
  · intro hroofs h hmem
    obtain ⟨prev, l1, l2, hdecomp⟩ := wallSlices_slice_decomp hroofs hmem
    refine ⟨prev, Primitive.buildingShade :: l1, l2, ?_⟩
    rw [draw_buildings_isometric m c hmode, hdecomp]
    rfl

/-- Concrete building for the C10 witness. -/
def wBuilding : Building := ⟨0, 2, 0, [⟨(0, 0), (1, 0)⟩]⟩

/-- Concrete drawable set for the C10 witness. -/
def wCon10 : Constructor := ⟨[], [], [], [], [wBuilding], {2}, [], []⟩

/-- Concrete map in isometric mode with roofs enabled. -/
def wMap10 : Map :=
  ⟨⟨1, 1, fun q => q, fun _ => 1⟩,
    ⟨0, BuildingMode.isometric, true, LabelMode.no, false, none⟩⟩

/-- Witness for C10: with roofs enabled, the roof of the height-2
building is emitted. -/
theorem C10_roofs_gate_witness :
    Primitive.roof 0 2 ∈ wMap10.draw_buildings wCon10 :=
  ((C10_roofs_gate wMap10 wCon10 rfl).1 0 2).mpr
    ⟨rfl,
      by
        rw [sortedHeights]
        exact (Finset.mem_sort _).mpr (Finset.mem_singleton_self 2),
      wBuilding, List.mem_cons_self _ _, rfl, rfl⟩

/-- Whether a primitive is a wall of segment `s` drawn at slice `hi`. -/
def wallMatcher (s : Segment) (hi : ℚ) : Primitive → Bool
  | Primitive.wall w _ _ h => decide (w = s) && decide (h = hi)
  | _ => false

theorem keys_wallsInsert (m : List (Segment × Building)) (k : Segment)
    (v : Building) :
    (wallsInsert m k v).map Prod.fst =
      if k ∈ m.map Prod.fst then m.map Prod.fst
      else m.map Prod.fst ++ [k] := by
  induction m with
  | nil => simp [wallsInsert]
  | cons kv rest ih =>
      obtain ⟨k', v'⟩ := kv
      rw [wallsInsert]
      by_cases heq : k' = k
      · subst heq
        simp
      · have hne : k ≠ k' := fun hcontra => heq hcontra.symm
        by_cases hk : k ∈ rest.map Prod.fst
        · simp [heq, ih, hk, hne]
        · simp [heq, ih, hk, hne]

theorem nodup_keys_wallsInsert {m : List (Segment × Building)} (k : Segment)
    (v : Building) (h : (m.map Prod.fst).Nodup) :
    ((wallsInsert m k v).map Prod.fst).Nodup := by
  rw [keys_wallsInsert]
  split
  · exact h
  · next hnot => simp [List.nodup_append, h, hnot]

theorem nodup_keys_buildWallsDict (bs : List Building) :
    ((buildWallsDict bs).map Prod.fst).Nodup :=
  foldl_preserve
    (P := fun m : List (Segment × Building) => (m.map Prod.fst).Nodup) _
    (fun m b hm =>
      foldl_preserve
        (P := fun m : List (Segment × Building) => (m.map Prod.fst).Nodup) _
        (fun m' part hm' => nodup_keys_wallsInsert part b hm') b.parts m hm)
    bs [] (by simp)

theorem mem_wallsAtSlice {walls : List (Segment × Building)}
    {sw : List Segment} {prev h : ℚ} {p : Primitive} :
    p ∈ wallsAtSlice walls sw prev h ↔
      ∃ w ∈ sw, ∃ b, wallsLookup walls w = some b ∧
        ¬(b.height < h ∨ b.min_height ≥ h) ∧
        p = Primitive.wall w b.id prev h := by
  rw [wallsAtSlice, List.mem_filterMap]
  constructor
  · rintro ⟨w, hw, hfw⟩
    cases hlk : wallsLookup walls w with
    | none => rw [hlk] at hfw; simp at hfw
    | some b =>
        simp only [hlk] at hfw
        split at hfw
        · simp at hfw
        · next hcond =>
            simp only [Option.some.injEq] at hfw
            exact ⟨w, hw, b, hlk, hcond, hfw.symm⟩
  · rintro ⟨w, hw, b, hlk, hcond, rfl⟩
    refine ⟨w, hw, ?_⟩
    simp only [hlk]
    rw [if_neg hcond]

theorem countP_wallsAtSlice_not_mem {walls : List (Segment × Building)}
    {sw : List Segment} {prev h : ℚ} {s : Segment} {hi : ℚ}
    (hs : s ∉ sw) :
    (wallsAtSlice walls sw prev h).countP (wallMatcher s hi) = 0 := by
  rw [List.countP_eq_zero]
  intro p hp
  obtain ⟨w, hw, b, _, _, rfl⟩ := mem_wallsAtSlice.mp hp
  rw [wallMatcher]
  simp only [Bool.and_eq_true, decide_eq_true_eq, not_and]
  intro hws _
  exact hs (hws ▸ hw)

theorem countP_wallsAtSlice_ne {walls : List (Segment × Building)}
    {sw : List Segment} {prev h : ℚ} {s : Segment} {hi : ℚ} (hne : h ≠ hi) :
    (wallsAtSlice walls sw prev h).countP (wallMatcher s hi) = 0 := by
  rw [List.countP_eq_zero]
  intro p hp
  obtain ⟨w, hw, b, _, _, rfl⟩ := mem_wallsAtSlice.mp hp
  rw [wallMatcher]
  simp [hne]

theorem countP_wallsAtSlice_le {walls : List (Segment × Building)}
    {prev hi : ℚ} {s : Segment} :
    ∀ {sw : List Segment}, sw.Nodup →
      (wallsAtSlice walls sw prev hi).countP (wallMatcher s hi) ≤ 1 := by
  intro sw
  induction sw with
  | nil => intro _; simp [wallsAtSlice]
  | cons w sw' ih =>
      intro hnd
      rw [List.nodup_cons] at hnd
      rw [wallsAtSlice, List.filterMap_cons]
      cases hfw : (match wallsLookup walls w with
        | none => none
        | some b =>
            if b.height < hi ∨ b.min_height ≥ hi then none
            else some (Primitive.wall w b.id prev hi)) with
      | none => exact ih hnd.2
      | some p =>
          rw [List.countP_cons]
          have hp : ∃ bid, p = Primitive.wall w bid prev hi := by
            cases hlk : wallsLookup walls w with
            | none => rw [hlk] at hfw; simp at hfw
            | some b =>
                simp only [hlk] at hfw
                split at hfw
                · simp at hfw
                · simp only [Option.some.injEq] at hfw
                  exact ⟨b.id, hfw.symm⟩
          obtain ⟨bid, rfl⟩ := hp
          by_cases hws : w = s
          · subst hws
            have hz : (wallsAtSlice walls sw' prev hi).countP
                (wallMatcher w hi) = 0 :=
              countP_wallsAtSlice_not_mem hnd.1
            rw [wallsAtSlice] at hz
            rw [hz]
            simp [wallMatcher]
          · have hif : wallMatcher s hi (Primitive.wall w bid prev hi)
                = false := by
              rw [wallMatcher]
              simp [hws]
            rw [hif]
            simpa using ih hnd.2

theorem countP_roofs_ite {bs : List Building} {cfg : MapConfiguration}
    {h : ℚ} {s : Segment} {hi : ℚ} :
    (if cfg.draw_roofs then roofsAtSlice bs h else []).countP
      (wallMatcher s hi) = 0 := by
  split
  · rw [List.countP_eq_zero]
    intro p hp
    rw [roofsAtSlice, List.mem_map] at hp
    obtain ⟨b, _, rfl⟩ := hp
    simp [wallMatcher]
  · simp

theorem countP_wallSlices_not_mem {cfg : MapConfiguration}
    {walls : List (Segment × Building)} {sw : List Segment}
    {bs : List Building} {s : Segment} {hi : ℚ} :
    ∀ {prev : ℚ} {hs : List ℚ}, hi ∉ hs →
      (wallSlices cfg walls sw bs prev hs).countP (wallMatcher s hi) = 0 := by
  intro prev hs
  induction hs generalizing prev with
  | nil => intro _; simp [wallSlices]
  | cons h rest ih =>
      intro hnotin
      rw [wallSlices, List.countP_append, List.countP_append]
      have hne : h ≠ hi := fun hcontra =>
        hnotin (hcontra ▸ List.mem_cons_self _ _)
      rw [countP_wallsAtSlice_ne hne, countP_roofs_ite,
        ih (fun hmem => hnotin (List.mem_cons_of_mem _ hmem))]

theorem countP_wallSlices_le {cfg : MapConfiguration}
    {walls : List (Segment × Building)} {sw : List Segment}
    {bs : List Building} {s : Segment} {hi : ℚ} (hnd : sw.Nodup) :
    ∀ {prev : ℚ} {hs : List ℚ}, hs.Nodup →
      (wallSlices cfg walls sw bs prev hs).countP (wallMatcher s hi) ≤ 1 := by
  intro prev hs
  induction hs generalizing prev with
  | nil => intro _; simp [wallSlices]
  | cons h rest ih =>
      intro hhnd
      rw [List.nodup_cons] at hhnd
      rw [wallSlices, List.countP_append, List.countP_append]
      rw [countP_roofs_ite]
      by_cases heq : h = hi
      · subst heq
        rw [countP_wallSlices_not_mem hhnd.1]
        simpa using countP_wallsAtSlice_le hnd
      · rw [countP_wallsAtSlice_ne heq]
        simpa using ih hhnd.2

/-- C4: Shared wall segments are deduplicated by geometric identity: for
every segment and every height slice, the whole building pass draws at
most one wall primitive for that segment at that slice. -/
theorem C4_wall_dedup (m : Map) (c : Constructor) (s : Segment) (hi : ℚ) :
    (m.draw_buildings c).countP (wallMatcher s hi) ≤ 1 := by
  rw [Map.draw_buildings]
  split
  · simp
  · split
    · rw [List.countP_eq_zero.mpr]
      · norm_num
      · intro p hp
        rw [List.mem_map] at hp
        obtain ⟨b, _, rfl⟩ := hp
        simp [wallMatcher]
    · rw [List.countP_cons]
      have hshade : wallMatcher s hi Primitive.buildingShade = false := rfl
      rw [hshade]
      have hsw : (List.insertionSort segLe
          ((buildWallsDict c.buildings).map Prod.fst)).Nodup :=
        (List.perm_insertionSort segLe _).nodup_iff.mpr
          (nodup_keys_buildWallsDict c.buildings)
      have hhs : (sortedHeights c).Nodup := by
        rw [sortedHeights]
        exact Finset.sort_nodup _ _
      simpa using countP_wallSlices_le hsw hhs

/-- The (previous, current) height pairs of the slice loop: slice `h`
draws walls vertically spanning from the previous slice height to `h`. -/
def consecPairs : ℚ → List ℚ → List (ℚ × ℚ)
  | _, [] => []
  | prev, h :: rest => (prev, h) :: consecPairs h rest

theorem consecPairs_of_mem {h : ℚ} :
    ∀ (hs : List ℚ) (prev : ℚ), h ∈ hs →
      ∃ lo, (lo, h) ∈ consecPairs prev hs
  | [], _, hmem => absurd hmem (List.not_mem_nil _)
  | h' :: rest, prev, hmem => by
      rcases List.mem_cons.mp hmem with heq | hmemr
      · exact ⟨prev, by rw [heq]; exact List.mem_cons_self _ _⟩
      · obtain ⟨lo, hlo⟩ := consecPairs_of_mem rest h' hmemr
        exact ⟨lo, List.mem_cons_of_mem _ hlo⟩

theorem wallsLookup_mem_keys {m : List (Segment × Building)} {s : Segment}
    {b : Building} : wallsLookup m s = some b → s ∈ m.map Prod.fst := by
  induction m with
  | nil => intro h; simp [wallsLookup] at h
  | cons kv rest ih =>
      obtain ⟨k, v⟩ := kv
      intro h
      rw [wallsLookup] at h
      split at h
      · next heq => simp [heq]
      · simp only [List.map_cons, List.mem_cons]
        exact Or.inr (ih h)

theorem mem_wall_wallSlices {cfg : MapConfiguration}
    {walls : List (Segment × Building)} {sw : List Segment}
    {bs : List Building} {s : Segment} {bid : ℕ} {lo hi : ℚ} :
    ∀ {prev : ℚ} {hs : List ℚ},
      Primitive.wall s bid lo hi ∈ wallSlices cfg walls sw bs prev hs ↔
        ((lo, hi) ∈ consecPairs prev hs ∧ s ∈ sw ∧
          ∃ b, wallsLookup walls s = some b ∧ bid = b.id ∧
            ¬(b.height < hi ∨ b.min_height ≥ hi)) := by
  intro prev hs
  induction hs generalizing prev with
  | nil => simp [wallSlices, consecPairs]
  | cons h rest ih =>
      rw [wallSlices, List.mem_append, List.mem_append]
      constructor
      · rintro hmemw
        rcases hmemw with (hw | hr) | hrec
        · obtain ⟨w, hwsw, b, hlk, hcond, heqw⟩ := mem_wallsAtSlice.mp hw
          injection heqw with hs1 hs2 hs3 hs4
          subst hs1
          subst hs2
          subst hs3
          subst hs4
          exact ⟨List.mem_cons_self _ _, hwsw, b, hlk, rfl, hcond⟩
        · exfalso
          split at hr
          · rw [roofsAtSlice, List.mem_map] at hr
            obtain ⟨b, _, hb⟩ := hr
            exact Primitive.noConfusion hb
          · simp at hr
        · obtain ⟨hpair, hsww, hex⟩ := ih.mp hrec
          exact ⟨List.mem_cons_of_mem _ hpair, hsww, hex⟩
      · rintro ⟨hpair, hsww, b, hlk, hbid, hcond⟩
        rcases List.mem_cons.mp hpair with heqp | hpairr
        · left
          left
          injection heqp with he1 he2
          subst he1
          subst he2
          exact mem_wallsAtSlice.mpr ⟨s, hsww, b, hlk, hcond, by rw [hbid]⟩
        · right
          exact ih.mpr ⟨hpairr, hsww, b, hlk, hbid, hcond⟩

theorem cover_aux (y h1 h2 : ℚ) :
    ∀ (hs : List ℚ) (prev : ℚ), List.Sorted (· < ·) hs → h2 ∈ hs →
      (∀ x ∈ hs, h1 ≤ x) → h1 ≤ prev → prev ≤ y → y < h2 →
      ∃ lo hi, (lo, hi) ∈ consecPairs prev hs ∧ lo ≤ y ∧ y < hi ∧
        h1 ≤ lo ∧ hi ≤ h2
  | [], _, _, h2mem, _, _, _, _ => absurd h2mem (List.not_mem_nil _)
  | h :: rest, prev, hsort, h2mem, hall, hh1prev, hprevy, hyh2 => by
      by_cases hyh : y < h
      · refine ⟨prev, h, List.mem_cons_self _ _, hprevy, hyh, hh1prev, ?_⟩
        rcases List.mem_cons.mp h2mem with heq | hmem
        · exact le_of_eq heq.symm
        · exact le_of_lt ((List.sorted_cons.mp hsort).1 h2 hmem)
      · push_neg at hyh
        have hh2 : h2 ∈ rest := by
          rcases List.mem_cons.mp h2mem with heq | hmem
          · exact absurd (heq ▸ hyh2) (not_lt.mpr hyh)
          · exact hmem
        obtain ⟨lo, hi, hmem', hly, hyi, hh1lo, hhih2⟩ :=
          cover_aux y h1 h2 rest h (List.sorted_cons.mp hsort).2 hh2
            (fun x hx => hall x (List.mem_cons_of_mem _ hx))
            (hall h (List.mem_cons_self _ _)) hyh hyh2
        exact ⟨lo, hi, List.mem_cons_of_mem _ hmem', hly, hyi, hh1lo, hhih2⟩

theorem cover_main (y h1 h2 : ℚ) :
    ∀ (hs : List ℚ) (prev : ℚ), List.Sorted (· < ·) hs → h1 ∈ hs →
      h2 ∈ hs → h1 ≤ y → y < h2 →
      ∃ lo hi, (lo, hi) ∈ consecPairs prev hs ∧ lo ≤ y ∧ y < hi ∧
        h1 ≤ lo ∧ hi ≤ h2
  | [], _, _, h1mem, _, _, _ => absurd h1mem (List.not_mem_nil _)
  | h :: rest, prev, hsort, h1mem, h2mem, hh1y, hyh2 => by
      by_cases heq : h = h1
      · subst heq
        have hh2 : h2 ∈ rest := by
          rcases List.mem_cons.mp h2mem with heq2 | hmem
          · exact absurd (heq2 ▸ hyh2) (not_lt.mpr hh1y)
          · exact hmem
        obtain ⟨lo, hi, hmem', hly, hyi, hh1lo, hhih2⟩ :=
          cover_aux y h h2 rest h (List.sorted_cons.mp hsort).2 hh2
            (fun x hx => le_of_lt ((List.sorted_cons.mp hsort).1 x hx))
            (le_refl h) hh1y hyh2
        exact ⟨lo, hi, List.mem_cons_of_mem _ hmem', hly, hyi, hh1lo, hhih2⟩
      · have hh1 : h1 ∈ rest := by
          rcases List.mem_cons.mp h1mem with heq1 | hmem
          · exact absurd heq1.symm heq
          · exact hmem
        have hh2 : h2 ∈ rest := by
          rcases List.mem_cons.mp h2mem with heq2 | hmem
          · exfalso
            have hlt : h < h1 := (List.sorted_cons.mp hsort).1 h1 hh1
            rw [heq2] at hyh2
            exact absurd (lt_of_le_of_lt hh1y hyh2) (not_lt.mpr (le_of_lt hlt))
          · exact hmem
        obtain ⟨lo, hi, hmem', hly, hyi, hh1lo, hhih2⟩ :=
          cover_main y h1 h2 rest h (List.sorted_cons.mp hsort).2 hh1 hh2
            hh1y hyh2
        exact ⟨lo, hi, List.mem_cons_of_mem _ hmem', hly, hyi, hh1lo, hhih2⟩

/-- C3: In the extrusion pass, a wall of a building is drawn at a
recorded slice height iff the building's height reaches the slice and
its minimum height lies strictly below it; consequently between any two
recorded heights h1 < h2 within the building's vertical extent, every
point of the band [h1, h2) is covered by some drawn wall slice of that
building. -/
theorem C3_wall_slices (m : Map) (c : Constructor) (s : Segment)
    (b : Building)
    (hmode : m.configuration.building_mode = BuildingMode.isometric)
    (hlk : wallsLookup (buildWallsDict c.buildings) s = some b) :
    (∀ h ∈ c.heights,
      ((∃ lo, Primitive.wall s b.id lo h ∈ m.draw_buildings c) ↔
        (h ≤ b.height ∧ b.min_height < h))) ∧
    (∀ h1 ∈ c.heights, ∀ h2 ∈ c.heights, h1 < h2 → b.min_height ≤ h1 →
      h2 ≤ b.height → ∀ y : ℚ, h1 ≤ y → y < h2 →
        ∃ lo hi, Primitive.wall s b.id lo hi ∈ m.draw_buildings c ∧
          lo ≤ y ∧ y < hi) := by
  have hsw : s ∈ List.insertionSort segLe
      ((buildWallsDict c.buildings).map Prod.fst) :=
    (List.perm_insertionSort segLe _).mem_iff.mpr (wallsLookup_mem_keys hlk)
  have hdb := draw_buildings_isometric m c hmode
  constructor
  · intro h hmem
    constructor
    · rintro ⟨lo, hwall⟩
      rw [hdb, List.mem_cons] at hwall
      rcases hwall with heq | hwall
      · exact Primitive.noConfusion heq
      · obtain ⟨hpair, _, b', hlk', hbid, hcond⟩ :=
          mem_wall_wallSlices.mp hwall
        have hb' : b' = b := by
          have hsome := hlk.symm.trans hlk'
          injection hsome with hbb
          exact hbb.symm
        subst hb'
        obtain ⟨hc1, hc2⟩ := not_or.mp hcond
        exact ⟨not_lt.mp hc1, not_le.mp hc2⟩
    · rintro ⟨hh, hmin⟩
      have hmemsort : h ∈ sortedHeights c := by
        rw [sortedHeights]
        exact (Finset.mem_sort _).mpr hmem
      obtain ⟨lo, hpair⟩ := consecPairs_of_mem (sortedHeights c) 0 hmemsort
      refine ⟨lo, ?_⟩
      rw [hdb, List.mem_cons]
      exact Or.inr (mem_wall_wallSlices.mpr
        ⟨hpair, hsw, b, hlk, rfl,
          not_or.mpr ⟨not_lt.mpr hh, not_le.mpr hmin⟩⟩)
  · intro h1 h1mem h2 h2mem _ hminh1 hh2b y hy1 hy2
    have hsorted : List.Sorted (· < ·) (sortedHeights c) := by
      rw [sortedHeights]
      exact Finset.sort_sorted_lt _
    have h1sort : h1 ∈ sortedHeights c := by
      rw [sortedHeights]
      exact (Finset.mem_sort _).mpr h1mem
    have h2sort : h2 ∈ sortedHeights c := by
      rw [sortedHeights]
      exact (Finset.mem_sort _).mpr h2mem
    obtain ⟨lo, hi, hpair, hly, hyi, hh1lo, hhih2⟩ :=
      cover_main y h1 h2 (sortedHeights c) 0 hsorted h1sort h2sort hy1 hy2
    refine ⟨lo, hi, ?_, hly, hyi⟩
    rw [hdb, List.mem_cons]
    refine Or.inr (mem_wall_wallSlices.mpr
      ⟨hpair, hsw, b, hlk, rfl, not_or.mpr ⟨?_, ?_⟩⟩)
    · exact not_lt.mpr (le_trans hhih2 hh2b)
    · exact not_le.mpr
        (lt_of_le_of_lt (le_trans (le_trans hminh1 hh1lo) hly) hyi)

/-- Concrete building for the C3 witness. -/
def wB3 : Building := ⟨0, 2, 0, [⟨(0, 0), (1, 0)⟩]⟩

/-- Concrete drawable set for the C3 witness: one building, recorded
heights 1 and 2. -/
def wCon3 : Constructor := ⟨[], [], [], [], [wB3], {1, 2}, [], []⟩

/-- Concrete map in isometric mode for the C3 witness. -/
def wMap3 : Map :=
  ⟨⟨1, 1, fun q => q, fun _ => 1⟩,
    ⟨0, BuildingMode.isometric, true, LabelMode.no, false, none⟩⟩

/-- Witness for C3: the building's wall at the recorded height 2 is
drawn at some slice. -/
theorem C3_wall_slices_witness :
    ∃ lo, Primitive.wall ⟨(0, 0), (1, 0)⟩ 0 lo 2 ∈
      wMap3.draw_buildings wCon3 :=
  ((C3_wall_slices wMap3 wCon3 ⟨(0, 0), (1, 0)⟩ wB3 rfl rfl).1 2
    (Finset.mem_insert_of_mem (Finset.mem_singleton_self 2))).mpr
    ⟨le_refl 2, by norm_num [wB3]⟩

theorem tryClaim_failed {occ : Option Occupied} {fp : Footprint}
    (h : (tryClaim occ fp).1 = false) : (tryClaim occ fp).2 = occ := by
  cases occ with
  | none => simp [tryClaim] at h
  | some o =>
      rw [tryClaim] at h ⊢
      by_cases hfree : o.isFree fp
      · rw [if_pos hfree] at h
        simp at h
      · rw [if_neg hfree]

theorem drawPass_append
    {f : Point → Option Occupied → List Primitive × Option Occupied}
    (l1 l2 : List Point) (occ : Option Occupied) :
    drawPass f (l1 ++ l2) occ =
      ((drawPass f l1 occ).1 ++ (drawPass f l2 (drawPass f l1 occ).2).1,
        (drawPass f l2 (drawPass f l1 occ).2).2) := by
  induction l1 generalizing occ with
  | nil => simp [drawPass]
  | cons q qs ih =>
      rw [List.cons_append, drawPass, drawPass, ih]
      simp [List.append_assoc]

/-- C6: In the point-icon layer the points are sorted by descending
priority (stably) and processed in two complete passes over that one
sorted sequence — all main icons first, then all extra icons — and a
failed main-icon claim skips only that icon, leaving every other icon's
placement (and the tracker state) exactly as if the failed point were
absent. -/
theorem C6_two_pass (m : Map) (c : Constructor) :
    (List.Sorted ptLe (List.insertionSort ptLe c.points) ∧
      (List.insertionSort ptLe c.points).Perm c.points) ∧
    (∃ l1 l2, m.draw c =
      l1 ++ ((drawPass Point.draw_main_shapes
          (List.insertionSort ptLe c.points) m.makeOccupied).1
        ++ ((drawPass Point.draw_extra_shapes
            (List.insertionSort ptLe c.points)
            (drawPass Point.draw_main_shapes
              (List.insertionSort ptLe c.points) m.makeOccupied).2).1
        ++ l2))) ∧
    (∀ (occ : Option Occupied) (l1 l2 : List Point) (p : Point),
      (tryClaim (drawPass Point.draw_main_shapes l1 occ).2 p.mainCells).1
          = false →
      drawPass Point.draw_main_shapes (l1 ++ p :: l2) occ =
        drawPass Point.draw_main_shapes (l1 ++ l2) occ) := by
  refine ⟨⟨List.sorted_insertionSort ptLe c.points,
      List.perm_insertionSort ptLe c.points⟩, ?_, ?_⟩
  · refine ⟨Primitive.background ::
      (((c.get_sorted_figures.filter
          (fun x => x.lineStyle.priority < ROAD_PRIORITY)).filterMap
            drawFigure)
        ++ (c.roadLayer.map Primitive.roadElem
        ++ (((c.get_sorted_figures.filter
            (fun x => ROAD_PRIORITY ≤ x.lineStyle.priority)).filterMap
              drawFigure)
        ++ (c.trees.map Primitive.tree
        ++ (c.craters.map Primitive.crater
        ++ (m.draw_buildings c
        ++ c.direction_sectors.map Primitive.directionSector)))))),
      (drawPass
        (fun p occ =>
          if ¬ m.configuration.wireframe ∧
              m.configuration.label_mode ≠ LabelMode.no
          then p.draw_texts occ else ([], occ))
        (List.insertionSort ptLe c.points)
        (drawPass Point.draw_extra_shapes (List.insertionSort ptLe c.points)
          (drawPass Point.draw_main_shapes
            (List.insertionSort ptLe c.points) m.makeOccupied).2).2).1
        ++ m.draw_credits, ?_⟩
    rw [Map.draw]
    simp [List.append_assoc]
  · intro occ l1 l2 p hfail
    rw [drawPass_append, drawPass_append]
    have hstep : drawPass Point.draw_main_shapes (p :: l2)
        (drawPass Point.draw_main_shapes l1 occ).2 =
        drawPass Point.draw_main_shapes l2
          (drawPass Point.draw_main_shapes l1 occ).2 := by
      rw [drawPass, Point.draw_main_shapes]
      simp only [hfail, tryClaim_failed hfail]
      simp
    rw [hstep]

/-- Concrete point claiming cell (0,0), for the C6 witness. -/
def wQ6 : Point := ⟨1, 5, [(0, 0)], [], []⟩

/-- Concrete lower-priority point whose main icon collides with `wQ6`. -/
def wP6 : Point := ⟨2, 3, [(0, 0)], [], []⟩

/-- Concrete enabled tracker for the C6 witness. -/
def wO6 : Occupied := ⟨4, 4, 1, []⟩

/-- Witness for C6: with the cell already claimed by the first point,
the second point's failed claim leaves the pass identical to the pass
without that point. -/
theorem C6_two_pass_witness :
    drawPass Point.draw_main_shapes ([wQ6] ++ wP6 :: []) (some wO6) =
      drawPass Point.draw_main_shapes ([wQ6] ++ []) (some wO6) :=
  (C6_two_pass ⟨⟨1, 1, fun q => q, fun _ => 1⟩,
      ⟨1, BuildingMode.no, false, LabelMode.no, false, none⟩⟩
    ⟨[], [], [], [], [], ∅, [], []⟩).2.2
    (some wO6) [wQ6] [] wP6 (by decide)

theorem insertionSort_eq_of_perm {α : Type} {r : α → α → Prop}
    [DecidableRel r] [IsTotal α r] [IsTrans α r] [IsAntisymm α r]
    {l1 l2 : List α} (h : l1.Perm l2) :
    List.insertionSort r l1 = List.insertionSort r l2 :=
  List.eq_of_perm_of_sorted
    ((List.perm_insertionSort r l1).trans
      (h.trans (List.perm_insertionSort r l2).symm))
    (List.sorted_insertionSort r l1) (List.sorted_insertionSort r l2)

/-- C8: The junction pass is deterministic despite the unordered
half-edge sets: whatever enumeration order the set iteration yields, the
angular sort with its stable injective tie-break produces the same
half-edge sequence, so two runs emit identical junction geometry. -/
theorem C8_determinism (m : Map) (roads : List Road)
    (o1 o2 : Finset RoadPart → List RoadPart)
    (h1 : ∀ s, (o1 s).Perm s.toList) (h2 : ∀ s, (o2 s).Perm s.toList) :
    m.draw_simple_roads roads o1 = m.draw_simple_roads roads o2 := by
  rw [Map.draw_simple_roads, Map.draw_simple_roads]
  congr 1
  apply List.map_congr_left
  intro kv _
  by_cases hc : kv.2.card < 4
  · simp [hc]
  · rw [if_neg hc, if_neg hc]
    have hip : intersectionParts (o1 kv.2) = intersectionParts (o2 kv.2) := by
      rw [intersectionParts, intersectionParts]
      exact insertionSort_eq_of_perm ((h1 kv.2).trans (h2 kv.2).symm)
    rw [hip]

/-- Concrete road for the C8 witness. -/
def wRoad8 : Road := ⟨[⟨0, (0, 0)⟩, ⟨1, (1, 0)⟩, ⟨2, (1, 1)⟩], 2⟩

/-- Witness for C8: two different set-enumeration orders produce the
same junction output. -/
theorem C8_determinism_witness :
    Map.draw_simple_roads
        ⟨⟨1, 1, fun q => q, fun _ => 1⟩,
          ⟨0, BuildingMode.no, false, LabelMode.no, false, none⟩⟩
        [wRoad8] (fun s => s.toList.reverse) =
      Map.draw_simple_roads
        ⟨⟨1, 1, fun q => q, fun _ => 1⟩,
          ⟨0, BuildingMode.no, false, LabelMode.no, false, none⟩⟩
        [wRoad8] Finset.toList :=
  C8_determinism _ [wRoad8] _ _ (fun s => s.toList.reverse_perm)
    (fun _ => List.Perm.refl _)

end MapMachine
